import Mathlib

/-!
Verification of the claude-swarm orchestrator core.

A shallow embedding, in Lean 4, of the parts of the orchestrator that the
checked claims are about:

* the in-memory state store (`MemoryStore`: tasks, dependency edges, agents);
* the dependency graph (`wouldCreateCycle`, `addDependency`, `getReadyTasks`);
* the agent-scoring subsystem and the task router
  (`getPerformance`, `recordResult`, `calculateScore`, `routeTask`);
* the task scheduler (`schedule`);
* the conflict monitor (`assessConflictSeverity`, `registerFileActivity`);
* the budget guard of the request boundary (`processResult`, `submitTasks`);
* the Fly executor's status mapping (`getExecutionStatus`, `waitForCompletion`);
* the mesh topology message queues (`deliverMessage`, `getMessages`).

Conventions of the embedding:

* JavaScript numbers are modelled as `ℚ` (scores, rates, averages) or as
  `Int`/`Nat` (counters, cents, timestamps); all arithmetic in the modelled
  code paths is exact on the values involved.
* Timestamps (`new Date().toISOString()`, `Date.now()`) are modelled as a
  `Nat` clock value passed in explicitly (`now`).
* `Map`s are modelled as association lists with `Map.get` = first match and
  `Map.set` = replace-first-or-append, which matches JS `Map` semantics when
  the keys of the list are distinct (JS `Map` keys always are).
* Methods that mutate `this` are modelled by explicit state passing; a
  method that `throw`s is modelled with `Except`.
-/

/-- Task type (`TaskType` in the shared types package). -/
inductive TaskType where
  | code | test | review | doc | security
deriving DecidableEq, Repr

/-- Task priority (`TaskPriority`). -/
inductive TaskPriority where
  | high | normal | low
deriving DecidableEq, Repr

/-- Task lifecycle status (`TaskStatus`). -/
inductive TaskStatus where
  | pending | assigned | running | completed | failed | cancelled
deriving DecidableEq, Repr

/-- Model preference (`ModelType`). -/
inductive ModelType where
  | opus | sonnet
deriving DecidableEq, Repr

/-- Agent status (`AgentStatus`). -/
inductive AgentStatus where
  | idle | initializing | running | completed | failed | terminated
deriving DecidableEq, Repr

/-- Result status (`ResultStatus`); `partialResult` embeds the source's
middle variant. -/
inductive ResultStatus where
  | success | partialResult | failed
deriving DecidableEq, Repr

/-- The fields of `AgentTask` that the verified code paths read.
`createdAt` is the creation timestamp in epoch milliseconds. -/
structure TaskRec where
  id : String
  type : TaskType
  priority : TaskPriority
  model : ModelType
  budgetCents : Int
  createdAt : Nat
  status : TaskStatus
deriving DecidableEq, Repr

/-- The fields of `Agent` that the verified code paths read. -/
structure AgentRec where
  id : String
  status : AgentStatus
deriving DecidableEq, Repr

/-- The fields of `AgentResult` that the verified code paths read. -/
structure ResultRec where
  taskId : String
  agentId : String
  status : ResultStatus
  durationMs : ℚ
  costCents : ℚ
deriving DecidableEq, Repr

/-- The `MemoryStore` state used by the dependency graph, the scheduler and
the router: the task map (values, keyed by `TaskRec.id`), the dependency
edge set (pairs `(taskId, dependsOn)`) and the agent map (values). -/
structure Store where
  tasks : List TaskRec
  deps : List (String × String)
  agents : List AgentRec
deriving DecidableEq, Repr

/-- Embeds `MemoryStore.getTask`: `Map.get` on the task map. -/
def Store.getTask (s : Store) (id : String) : Option TaskRec :=
  s.tasks.find? (fun t => t.id = id)

/-- Embeds `MemoryStore.listTasks({status})`: the task values filtered by status. -/
def Store.listTasksByStatus (s : Store) (st : TaskStatus) : List TaskRec :=
  s.tasks.filter (fun t => t.status = st)

/-- Embeds `MemoryStore.getDependencies(taskId)`: the forward adjacency of one task. -/
def Store.getDependencies (s : Store) (taskId : String) : List String :=
  (s.deps.filter (fun e => e.1 = taskId)).map (fun e => e.2)

/-- Embeds `MemoryStore.addDependency(taskId, dependsOn)`: add the edge to the set
(a JS `Set.add`, hence a no-op when the edge is already present). -/
def Store.addDependencyRaw (s : Store) (taskId dependsOn : String) : Store :=
  if (taskId, dependsOn) ∈ s.deps then s
  else { s with deps := s.deps ++ [(taskId, dependsOn)] }

/-- Embeds `MemoryStore.areDependenciesMet(taskId)`: every direct dependency has a
stored task record whose status is `completed`; a missing record counts as
unmet. -/
def Store.areDependenciesMet (s : Store) (taskId : String) : Bool :=
  (s.getDependencies taskId).all (fun d =>
    match s.getTask d with
    | some dt => dt.status = TaskStatus.completed
    | none => false)

/-- Embeds `MemoryStore.listAgents()`. -/
def Store.listAgents (s : Store) : List AgentRec :=
  s.agents

/-! ## Dependency graph (`DependencyGraph`) -/

/-- One forward step of the dependency graph: `b` is a direct dependency of
`a`. -/
def DepStep (s : Store) (a b : String) : Prop :=
  b ∈ s.getDependencies a

/-- Reachability along forward dependency edges (the relation the DFS in
`wouldCreateCycle` explores). -/
def Reaches (s : Store) (a b : String) : Prop :=
  Relation.ReflTransGen (DepStep s) a b

/-- All edge targets of the store; every node the DFS can push. -/
def depTargets (s : Store) : Finset String :=
  (s.deps.map (fun e => e.2)).toFinset

/-- The iterative DFS inside `DependencyGraph.wouldCreateCycle`: pop a node,
succeed if it is the target `t`, skip it when already visited, otherwise
mark it visited and push its direct dependencies.  (The source pops from the
end of a JS array; the success/failure result does not depend on the
exploration order, so the stack is modelled with its head as the top.) -/
def dfsReach (s : Store) (t : String) (stack : List String)
    (visited : Finset String) : Bool :=
  match stack with
  | [] => false
  | c :: rest =>
    if c = t then true
    else if c ∈ visited then dfsReach s t rest visited
    else dfsReach s t (s.getDependencies c ++ rest) (insert c visited)
termination_by
  ((depTargets s ∪ stack.toFinset) \ visited).card * (s.deps.length + 1)
    + stack.length
decreasing_by
  · have hsub : (depTargets s ∪ rest.toFinset) \ visited ⊆
        (depTargets s ∪ (c :: rest).toFinset) \ visited := by
      intro x hx
      simp only [Finset.mem_sdiff, Finset.mem_union, List.toFinset_cons,
        Finset.mem_insert, List.mem_toFinset] at hx ⊢
      tauto
    have hcard := Finset.card_le_card hsub
    have hmul := Nat.mul_le_mul_right (s.deps.length + 1) hcard
    simp only [List.length_cons]
    omega
  · rename_i hcv
    have hcA : c ∈ (depTargets s ∪ (c :: rest).toFinset) \ visited := by
      simp only [Finset.mem_sdiff, Finset.mem_union, List.toFinset_cons,
        Finset.mem_insert, List.mem_toFinset]
      exact ⟨Or.inr (Or.inl trivial), hcv⟩
    have hsub : (depTargets s ∪ (s.getDependencies c ++ rest).toFinset) \
        insert c visited ⊆
        ((depTargets s ∪ (c :: rest).toFinset) \ visited).erase c := by
      intro x hx
      simp only [Finset.mem_sdiff, Finset.mem_union, List.toFinset_append,
        Finset.mem_insert, List.mem_toFinset, Finset.mem_erase,
        List.toFinset_cons, List.mem_append] at hx ⊢
      obtain ⟨hx1, hx2⟩ := hx
      push_neg at hx2
      refine ⟨hx2.1, ?_, hx2.2⟩
      rcases hx1 with h | h
      · exact Or.inl h
      · rcases h with h | h
        · refine Or.inl ?_
          simp only [Store.getDependencies, List.mem_map, List.mem_filter] at h
          obtain ⟨e, he, rfl⟩ := h
          simp only [depTargets, List.mem_toFinset, List.mem_map]
          exact ⟨e, he.1, rfl⟩
        · exact Or.inr (Or.inr h)
    have hcard : ((depTargets s ∪ (s.getDependencies c ++ rest).toFinset) \
        insert c visited).card + 1 ≤
        ((depTargets s ∪ (c :: rest).toFinset) \ visited).card := by
      have h1 := Finset.card_le_card hsub
      have h2 := Finset.card_erase_add_one hcA
      omega
    have hdlen : (s.getDependencies c).length ≤ s.deps.length := by
      simp only [Store.getDependencies, List.length_map]
      exact List.length_filter_le _ _
    have hmul := Nat.mul_le_mul_right (s.deps.length + 1) hcard
    have hexp :
        (((depTargets s ∪ (s.getDependencies c ++ rest).toFinset) \
          insert c visited).card + 1) * (s.deps.length + 1) =
        ((depTargets s ∪ (s.getDependencies c ++ rest).toFinset) \
          insert c visited).card * (s.deps.length + 1) +
          (s.deps.length + 1) := by
      ring
    rw [hexp] at hmul
    simp only [List.length_append, List.length_cons]
    omega

/-- Embeds `DependencyGraph.wouldCreateCycle(taskId, dependsOn)`: self-edge, or the
DFS from `dependsOn` reaches `taskId`. -/
def wouldCreateCycle (s : Store) (taskId dependsOn : String) : Bool :=
  if taskId = dependsOn then true
  else dfsReach s taskId [dependsOn] ∅

/-- Embeds `DependencyGraph.addDependency(taskId, dependsOn)`: throws when the edge
would create a cycle, otherwise persists the edge through the store. -/
def addDependency (s : Store) (taskId dependsOn : String) :
    Except String Store :=
  if wouldCreateCycle s taskId dependsOn then
    Except.error ("Adding dependency " ++ taskId ++ " -> " ++ dependsOn ++
      " would create a circular dependency")
  else
    Except.ok (s.addDependencyRaw taskId dependsOn)

/-- The caller's store after `addDependency`: unchanged when the method
throws (the store mutation is never reached), the returned store otherwise. -/
def addDependencyRun (s : Store) (taskId dependsOn : String) : Store :=
  match addDependency s taskId dependsOn with
  | Except.ok s' => s'
  | Except.error _ => s

/-- Absence of cycles in the stored graph; this is exactly the condition
under which `DependencyGraph.detectCycles()` returns `null` (no back edge
exists for its coloured DFS to find). -/
def CycleFree (s : Store) : Prop :=
  ∀ a b, DepStep s a b → ¬ Reaches s b a

/-- Embeds `DependencyGraph.getReadyTasks()`: ids of `pending` tasks whose
dependencies are met. -/
def getReadyTasks (s : Store) : List String :=
  ((s.listTasksByStatus TaskStatus.pending).filter
    (fun t => s.areDependenciesMet t.id)).map (fun t => t.id)

/-! ## Correctness of the cycle-check DFS -/

/-- If every dependency of a visited node stays inside `visited ∪ S`, then a
path from a visited node to an unvisited target must pass through `S`. -/
lemma reach_escape (s : Store) (t : String) (V : Finset String)
    (S : List String)
    (hI : ∀ v ∈ V, ∀ w ∈ s.getDependencies v, w ∈ V ∨ w ∈ S)
    (ht : t ∉ V) :
    ∀ a, a ∈ V → Reaches s a t → ∃ x ∈ S, Reaches s x t := by
  intro a haV h
  revert haV
  induction h using Relation.ReflTransGen.head_induction_on with
  | refl => intro haV; exact absurd haV ht
  | head hstep hrest ih =>
    rename_i a' c
    intro haV
    rcases hI a' haV c hstep with hcV | hcS
    · exact ih hcV
    · refine ⟨c, hcS, ?_⟩
      exact hrest

/-- The DFS succeeds exactly when the target is reachable from some stack
entry, provided the visited set is closed up to the stack and does not
contain the target. -/
lemma dfsReach_eq_true_iff (s : Store) (t : String) :
    ∀ stack visited,
      (∀ v ∈ visited, ∀ w ∈ s.getDependencies v, w ∈ visited ∨ w ∈ stack) →
      t ∉ visited →
      (dfsReach s t stack visited = true ↔ ∃ x ∈ stack, Reaches s x t) := by
  intro stack visited
  induction stack, visited using dfsReach.induct s t with
  | case1 visited =>
    intro _ _
    simp [dfsReach]
  | case2 visited rest =>
    intro _ _
    have hd : dfsReach s t (t :: rest) visited = true := by
      rw [dfsReach]
      simp
    exact iff_of_true hd
      ⟨t, List.mem_cons_self t rest, Relation.ReflTransGen.refl⟩
  | case3 visited c rest hct hcv ih =>
    intro hI ht
    have hI' : ∀ v ∈ visited, ∀ w ∈ s.getDependencies v,
        w ∈ visited ∨ w ∈ rest := by
      intro v hv w hw
      rcases hI v hv w hw with h | h
      · exact Or.inl h
      · rcases List.mem_cons.mp h with hwc | h
        · exact Or.inl (hwc ▸ hcv)
        · exact Or.inr h
    have hstep : dfsReach s t (c :: rest) visited =
        dfsReach s t rest visited := by
      rw [dfsReach]
      simp [hct, hcv]
    rw [hstep, ih hI' ht]
    constructor
    · rintro ⟨x, hx, hr⟩
      exact ⟨x, List.mem_cons_of_mem c hx, hr⟩
    · rintro ⟨x, hx, hr⟩
      rcases List.mem_cons.mp hx with hxc | hx
      · exact reach_escape s t visited rest hI' ht c hcv (hxc ▸ hr)
      · exact ⟨x, hx, hr⟩
  | case4 visited c rest hct hcv ih =>
    intro hI ht
    have hI' : ∀ v ∈ insert c visited, ∀ w ∈ s.getDependencies v,
        w ∈ insert c visited ∨ w ∈ s.getDependencies c ++ rest := by
      intro v hv w hw
      rcases Finset.mem_insert.mp hv with hvc | hv
      · exact Or.inr (List.mem_append_left _ (hvc ▸ hw))
      · rcases hI v hv w hw with h | h
        · exact Or.inl (Finset.mem_insert_of_mem h)
        · rcases List.mem_cons.mp h with hwc | h
          · exact Or.inl (hwc ▸ Finset.mem_insert_self c visited)
          · exact Or.inr (List.mem_append_right _ h)
    have ht' : t ∉ insert c visited := by
      simp only [Finset.mem_insert, not_or]
      exact ⟨fun h => hct h.symm, ht⟩
    have hstep : dfsReach s t (c :: rest) visited =
        dfsReach s t (s.getDependencies c ++ rest) (insert c visited) := by
      rw [dfsReach]
      simp [hct, hcv]
    rw [hstep, ih hI' ht']
    constructor
    · rintro ⟨x, hx, hr⟩
      rcases List.mem_append.mp hx with hx | hx
      · exact ⟨c, List.mem_cons_self c rest,
          Relation.ReflTransGen.head (show DepStep s c x from hx) hr⟩
      · exact ⟨x, List.mem_cons_of_mem c hx, hr⟩
    · rintro ⟨x, hx, hr⟩
      rcases List.mem_cons.mp hx with hxc | hx
      · rcases Relation.ReflTransGen.cases_head (hxc ▸ hr : Reaches s c t)
          with hc2 | ⟨m, hm, hr2⟩
        · exact absurd hc2 hct
        · exact ⟨m, List.mem_append_left _ hm, hr2⟩
      · exact ⟨x, List.mem_append_right _ hx, hr⟩

/-- Characterisation: `wouldCreateCycle(t, d)` holds exactly on a self-edge or when `t` is
reachable from `d` along forward dependency edges. -/
lemma wouldCreateCycle_iff (s : Store) (t d : String) :
    wouldCreateCycle s t d = true ↔ t = d ∨ Reaches s d t := by
  unfold wouldCreateCycle
  by_cases htd : t = d
  · simp [htd]
  · rw [if_neg htd,
      dfsReach_eq_true_iff s t [d] ∅ (by simp) (Finset.not_mem_empty t)]
    constructor
    · rintro ⟨x, hx, hr⟩
      rcases List.mem_singleton.mp hx with rfl
      exact Or.inr hr
    · rintro (h | h)
      · exact absurd h htd
      · exact ⟨d, List.mem_singleton_self d, h⟩

/-! ## Claim C1 -/

/-- Claim C1. `DependencyGraph.addDependency(t, d)` rejects with a cycle error
if and only if `t = d` or `t` is reachable from `d` along forward dependency
edges; and when it rejects, the caller's store is unchanged (no edge was
persisted), so a cycle-free graph — the condition under which
`detectCycles()` returns `null` — stays cycle-free. -/
theorem addDependency_cycle_guard (s : Store) (t d : String) :
    ((∃ e, addDependency s t d = Except.error e) ↔ t = d ∨ Reaches s d t)
    ∧ (∀ e, addDependency s t d = Except.error e →
        addDependencyRun s t d = s ∧
        (CycleFree s → CycleFree (addDependencyRun s t d))) := by
  constructor
  · by_cases hw : wouldCreateCycle s t d = true
    · rw [← wouldCreateCycle_iff]
      simp [addDependency, hw]
    · have hw' : wouldCreateCycle s t d = false := by
        simpa using hw
      rw [← wouldCreateCycle_iff]
      simp [addDependency, hw']
  · intro e he
    have hrun : addDependencyRun s t d = s := by
      unfold addDependencyRun
      rw [he]
    refine ⟨hrun, fun hcf => ?_⟩
    rw [hrun]
    exact hcf

/-- Witness for C1 at a concrete input: on the empty store, adding the
self-dependency `x → x` rejects, and the caller's store is unchanged. -/
theorem addDependency_cycle_guard_witness :
    addDependencyRun ⟨[], [], []⟩ "x" "x" = ⟨[], [], []⟩ ∧
    ("x" = "x" ∨ Reaches ⟨[], [], []⟩ "x" "x") :=
  ⟨((addDependency_cycle_guard ⟨[], [], []⟩ "x" "x").2 _ rfl).1,
   (addDependency_cycle_guard ⟨[], [], []⟩ "x" "x").1.mp ⟨_, rfl⟩⟩

/-! ## Claim C2 -/

/-- On a list whose `id` projections are distinct, `find?` by a member's id
returns exactly that member (the JS `Map.get` behaviour). -/
lemma find?_id_eq_some {l : List TaskRec}
    (h : (l.map TaskRec.id).Nodup) {tr : TaskRec} (htr : tr ∈ l) :
    l.find? (fun x => x.id = tr.id) = some tr := by
  induction l with
  | nil => cases htr
  | cons x xs ih =>
    simp only [List.map_cons, List.nodup_cons, List.mem_map] at h
    rcases List.mem_cons.mp htr with rfl | htr
    · exact List.find?_cons_of_pos _ (by simp)
    · have hx : ¬ x.id = tr.id := by
        intro hid
        exact h.1 ⟨tr, htr, hid.symm⟩
      rw [List.find?_cons_of_neg _ (by simp [hx])]
      exact ih h.2 htr

/-- Claim C2. For every store whose task map has distinct ids (always true of
a JS `Map`), `getReadyTasks()` returns exactly the ids of tasks whose status
is `pending` and whose every direct dependency has a stored record with
status `completed`; a dependency with no stored record counts as unmet. -/
theorem getReadyTasks_mem_iff (s : Store)
    (hN : (s.tasks.map TaskRec.id).Nodup) (i : String) :
    i ∈ getReadyTasks s ↔
      ∃ tr ∈ s.tasks, tr.id = i ∧ tr.status = TaskStatus.pending ∧
        ∀ d ∈ s.getDependencies i,
          ∃ dt ∈ s.tasks, dt.id = d ∧ dt.status = TaskStatus.completed := by
  unfold getReadyTasks Store.listTasksByStatus
  simp only [List.mem_map, List.mem_filter, decide_eq_true_eq]
  constructor
  · rintro ⟨tr, ⟨⟨htr, hst⟩, hmet⟩, rfl⟩
    refine ⟨tr, htr, rfl, hst, ?_⟩
    intro d hd
    have hall := List.all_eq_true.mp hmet d hd
    cases hf : s.getTask d with
    | none => rw [hf] at hall; cases hall
    | some dt =>
      rw [hf] at hall
      refine ⟨dt, List.mem_of_find?_eq_some hf, ?_, of_decide_eq_true hall⟩
      have := List.find?_some hf
      exact of_decide_eq_true this
  · rintro ⟨tr, htr, rfl, hst, hdeps⟩
    refine ⟨tr, ⟨⟨htr, hst⟩, ?_⟩, rfl⟩
    apply List.all_eq_true.mpr
    intro d hd
    obtain ⟨dt, hdt, hdid, hdst⟩ := hdeps d hd
    have hf : s.getTask d = some dt := by
      unfold Store.getTask
      rw [← hdid]
      exact find?_id_eq_some hN hdt
    rw [hf]
    exact decide_eq_true hdst

/-- Witness for C2 at a concrete input: with task `a` completed and task `b`
pending behind the edge `b → a`, `b` is ready. -/
theorem getReadyTasks_mem_iff_witness :
    "b" ∈ getReadyTasks
      ⟨[⟨"a", TaskType.code, TaskPriority.normal, ModelType.sonnet, 100, 0,
          TaskStatus.completed⟩,
        ⟨"b", TaskType.test, TaskPriority.normal, ModelType.sonnet, 100, 1,
          TaskStatus.pending⟩], [("b", "a")], []⟩ :=
  (getReadyTasks_mem_iff _ (by decide) "b").mpr
    ⟨⟨"b", TaskType.test, TaskPriority.normal, ModelType.sonnet, 100, 1,
        TaskStatus.pending⟩, by decide, rfl, rfl, by decide⟩

/-! ## Agent scoring (`AgentScoring`) -/

/-- A performance record for one (agent, task type) pair
(`AgentPerformance`); `lastUpdated` in epoch milliseconds. -/
structure AgentPerformance where
  agentId : String
  taskType : TaskType
  successRate : ℚ
  avgDurationMs : ℚ
  avgCostCents : ℚ
  completedCount : Nat
  lastUpdated : Nat
deriving DecidableEq, Repr

/-- The `AgentScoring` state: the EMA smoothing factor `alpha` (constructor
default `0.3`) and the in-memory metrics cache keyed by
`"agentId:taskType"`. -/
structure AgentScoring where
  alpha : ℚ
  metrics : List (String × AgentPerformance)
deriving DecidableEq, Repr

/-- A JS `Map.get`: first matching key. -/
def lookupA {β : Type} (l : List (String × β)) (k : String) : Option β :=
  (l.find? (fun p => p.1 = k)).map (fun p => p.2)

/-- A JS `Map.set`: replace the entry in place, or append a new one. -/
def setA {β : Type} (l : List (String × β)) (k : String) (v : β) :
    List (String × β) :=
  match l with
  | [] => [(k, v)]
  | (k', v') :: rest =>
    if k' = k then (k, v) :: rest else (k', v') :: setA rest k v

lemma lookupA_setA_self {β : Type} (l : List (String × β)) (k : String)
    (v : β) : lookupA (setA l k v) k = some v := by
  induction l with
  | nil => simp [setA, lookupA, List.find?]
  | cons p rest ih =>
    obtain ⟨k', v'⟩ := p
    by_cases h : k' = k
    · simp [setA, h, lookupA, List.find?]
    · simp only [setA, if_neg h]
      unfold lookupA
      rw [List.find?_cons_of_neg _ (by simp [h])]
      exact ih

lemma find?_key_cons_eq {β : Type} (k₀ k' : String) (v₀ : β)
    (rest : List (String × β)) (h : k₀ = k') :
    List.find? (fun p => p.1 = k') ((k₀, v₀) :: rest) = some (k₀, v₀) := by
  apply List.find?_cons_of_pos
  simp [h]

lemma find?_key_cons_ne {β : Type} (k₀ k' : String) (v₀ : β)
    (rest : List (String × β)) (h : k₀ ≠ k') :
    List.find? (fun p => p.1 = k') ((k₀, v₀) :: rest)
      = List.find? (fun p => p.1 = k') rest := by
  apply List.find?_cons_of_neg
  simp [h]

lemma lookupA_setA_ne {β : Type} (l : List (String × β)) (k k' : String)
    (v : β) (h : k' ≠ k) : lookupA (setA l k v) k' = lookupA l k' := by
  induction l with
  | nil =>
    unfold lookupA setA
    rw [find?_key_cons_ne k k' v [] (Ne.symm h)]
  | cons p rest ih =>
    obtain ⟨k₀, v₀⟩ := p
    by_cases hk : k₀ = k
    · subst hk
      have hset : setA ((k₀, v₀) :: rest) k₀ v = (k₀, v) :: rest := by
        unfold setA
        rw [if_pos rfl]
      rw [hset]
      unfold lookupA
      rw [find?_key_cons_ne _ _ _ _ (Ne.symm h),
        find?_key_cons_ne _ _ _ _ (Ne.symm h)]
    · simp only [setA, if_neg hk]
      by_cases hk' : k₀ = k'
      · unfold lookupA
        rw [find?_key_cons_eq _ _ _ _ hk', find?_key_cons_eq _ _ _ _ hk']
      · unfold lookupA at ih ⊢
        rw [find?_key_cons_ne _ _ _ _ hk', find?_key_cons_ne _ _ _ _ hk']
        exact ih

/-- The string value of a `TaskType` (the template literal in `getKey`). -/
def taskTypeKey : TaskType → String
  | TaskType.code => "code"
  | TaskType.test => "test"
  | TaskType.review => "review"
  | TaskType.doc => "doc"
  | TaskType.security => "security"

/-- Embeds `AgentScoring.getKey`. -/
def getKey (agentId : String) (t : TaskType) : String :=
  agentId ++ ":" ++ taskTypeKey t

/-- The default metrics for a fresh (agent, task type) pair. -/
def defaultMetrics (agentId : String) (t : TaskType) (now : Nat) :
    AgentPerformance :=
  { agentId := agentId, taskType := t, successRate := 1/2,
    avgDurationMs := 300000, avgCostCents := 100, completedCount := 0,
    lastUpdated := now }

/-- Embeds `AgentScoring.getPerformance`: the cached record, or a freshly cached
default one. -/
def getPerformance (sc : AgentScoring) (agentId : String) (t : TaskType)
    (now : Nat) : AgentPerformance × AgentScoring :=
  match lookupA sc.metrics (getKey agentId t) with
  | some m => (m, sc)
  | none =>
    let d := defaultMetrics agentId t now
    (d, { sc with metrics := setA sc.metrics (getKey agentId t) d })

/-- Embeds `AgentScoring.ema(previous, current)`. -/
def ema (alpha previous current : ℚ) : ℚ :=
  alpha * current + (1 - alpha) * previous

/-- Embeds `AgentScoring.recordResult(result, task)`. -/
def recordResult (sc : AgentScoring) (result : ResultRec) (task : TaskRec)
    (now : Nat) : AgentScoring :=
  let key := getKey result.agentId task.type
  let pr := getPerformance sc result.agentId task.type now
  let current := pr.1
  let success : ℚ := if result.status = ResultStatus.success then 1 else 0
  let newMetrics : AgentPerformance := { current with
    successRate := ema sc.alpha current.successRate success,
    avgDurationMs := ema sc.alpha current.avgDurationMs result.durationMs,
    avgCostCents := ema sc.alpha current.avgCostCents result.costCents,
    completedCount := current.completedCount + 1,
    lastUpdated := now }
  { pr.2 with metrics := setA pr.2.metrics key newMetrics }

/-- Embeds `clamp` to `[0, 1]` as written in `calculateScore`
(`Math.min(1, Math.max(0, x))`). -/
def qclamp01 (x : ℚ) : ℚ := min 1 (max 0 x)

/-- Embeds `AgentScoring.calculateScore(metrics, task)`: weighted blend of success
rate, normalised speed and normalised cost, with an experience boost. -/
def calculateScore (m : AgentPerformance) (_task : TaskRec) : ℚ :=
  let normalizedSpeed := 1 - qclamp01 ((m.avgDurationMs - 10000) / (3600000 - 10000))
  let normalizedCost := 1 - qclamp01 ((m.avgCostCents - 1) / (1000 - 1))
  let score := (1/2) * m.successRate + (1/4) * normalizedSpeed
    + (1/4) * normalizedCost
  let experienceBoost := min (1/5) ((m.completedCount : ℚ) / 500)
  score * (1 + experienceBoost)

/-- Embeds `AgentScoring.getMetricsByTaskType`. -/
def getMetricsByTaskType (sc : AgentScoring) (t : TaskType) :
    List AgentPerformance :=
  (sc.metrics.map (fun p => p.2)).filter (fun m => m.taskType = t)

/-! ## Claim C5 -/

/-- Claim C5. For every completed result recorded with the default smoothing
factor `α = 0.3`, the updated record's success rate equals
`α·x + (1−α)·prev` (so it is within `1e-9` of it), where `x = 1` iff the
result status is `success`; average duration and cost update by the same
EMA formula from the result's `durationMs` and `costCents`, and the
completion count increases by exactly one. -/
theorem recordResult_ema_update (sc : AgentScoring) (res : ResultRec)
    (task : TaskRec) (now : Nat) (hα : sc.alpha = 3/10) :
    let prev := (getPerformance sc res.agentId task.type now).1
    let x : ℚ := if res.status = ResultStatus.success then 1 else 0
    let updated :=
      (getPerformance (recordResult sc res task now) res.agentId task.type
        now).1
    |updated.successRate - ((3/10) * x + (1 - 3/10) * prev.successRate)|
        < 1/1000000000
    ∧ updated.avgDurationMs
        = (3/10) * res.durationMs + (1 - 3/10) * prev.avgDurationMs
    ∧ updated.avgCostCents
        = (3/10) * res.costCents + (1 - 3/10) * prev.avgCostCents
    ∧ updated.completedCount = prev.completedCount + 1 := by
  intro prev x updated
  have hup : updated = { prev with
      successRate := ema sc.alpha prev.successRate x,
      avgDurationMs := ema sc.alpha prev.avgDurationMs res.durationMs,
      avgCostCents := ema sc.alpha prev.avgCostCents res.costCents,
      completedCount := prev.completedCount + 1,
      lastUpdated := now } := by
    show (getPerformance (recordResult sc res task now) res.agentId
        task.type now).1 = _
    unfold recordResult getPerformance
    rw [lookupA_setA_self]
    rfl
  rw [hup]
  unfold ema
  rw [hα]
  refine ⟨?_, by ring, by ring, rfl⟩
  have h0 : (3/10 : ℚ) * x + (1 - 3/10) * prev.successRate
      - ((3/10) * x + (1 - 3/10) * prev.successRate) = 0 := by ring
  rw [show ({ prev with
      successRate := 3/10 * x + (1 - 3/10) * prev.successRate,
      avgDurationMs := 3/10 * res.durationMs + (1 - 3/10) * prev.avgDurationMs,
      avgCostCents := 3/10 * res.costCents + (1 - 3/10) * prev.avgCostCents,
      completedCount := prev.completedCount + 1,
      lastUpdated := now } : AgentPerformance).successRate
    = 3/10 * x + (1 - 3/10) * prev.successRate from rfl, h0, abs_zero]
  norm_num

/-- Witness for C5 at a concrete input with the default `α = 0.3`. -/
theorem recordResult_ema_update_witness :
    let sc : AgentScoring := ⟨3/10, []⟩
    let res : ResultRec := ⟨"t", "a", ResultStatus.success, 60000, 50⟩
    let task : TaskRec := ⟨"t", TaskType.code, TaskPriority.normal,
      ModelType.sonnet, 100, 0, TaskStatus.running⟩
    let prev := (getPerformance sc "a" TaskType.code 7).1
    let x : ℚ := 1
    let updated :=
      (getPerformance (recordResult sc res task 7) "a" TaskType.code 7).1
    |updated.successRate - ((3/10) * x + (1 - 3/10) * prev.successRate)|
        < 1/1000000000
    ∧ updated.avgDurationMs
        = (3/10) * res.durationMs + (1 - 3/10) * prev.avgDurationMs
    ∧ updated.avgCostCents
        = (3/10) * res.costCents + (1 - 3/10) * prev.avgCostCents
    ∧ updated.completedCount = prev.completedCount + 1 :=
  recordResult_ema_update ⟨3/10, []⟩ ⟨"t", "a", ResultStatus.success, 60000, 50⟩
    ⟨"t", TaskType.code, TaskPriority.normal, ModelType.sonnet, 100, 0,
      TaskStatus.running⟩ 7 rfl

/-! ## Task router (`TaskRouter`) -/

/-- A routing decision. -/
structure RoutingDecision where
  agentId : Option String
  model : ModelType
  confidence : ℚ
  reason : String
deriving DecidableEq, Repr

/-- Embeds `TaskRouter.selectModel(task, metrics?)`.  In the source the first line
is `if (task.model) return task.model`; `AgentTask.model` is a required,
always-truthy field (the submission schema defaults it to `sonnet`), so the
remaining branches (security/review → opus, budget ≥ 500 → opus,
low-success history → opus, default sonnet) are unreachable and the method
returns the task's model. -/
def selectModel (task : TaskRec) (_metrics : Option AgentPerformance) :
    ModelType :=
  task.model

/-- JS `Math.round`: round half toward positive infinity. -/
def jsRound (x : ℚ) : ℤ := ⌊x + 1/2⌋

/-- Embeds `TaskRouter.calculateConfidence(metrics, score)`. -/
def calculateConfidence (m : AgentPerformance) (score : ℚ) : ℚ :=
  let c1 := min 1 score
  let c2 := if m.completedCount < 5 then c1 * (3/5)
    else if m.completedCount < 20 then c1 * (4/5) else c1
  let c3 := if 3/10 < m.successRate ∧ m.successRate < 7/10
    then c2 * (4/5) else c2
  (jsRound (c3 * 100) : ℚ) / 100

/-- JS `Number.toFixed(2)` on the non-negative scores that occur here. -/
def qToFixed2 (q : ℚ) : String :=
  let n : ℤ := jsRound (q * 100)
  let fp := (n % 100).natAbs
  toString (n / 100) ++ "." ++
    (if fp < 10 then "0" ++ toString fp else toString fp)

/-- A scored idle agent, as collected by `routeTask`. -/
structure ScoredAgent where
  agent : AgentRec
  score : ℚ
  metrics : AgentPerformance
deriving DecidableEq, Repr

/-- Embeds `TaskRouter.formatReason(best)`. -/
def formatReason (best : ScoredAgent) : String :=
  "Agent " ++ best.agent.id.take 8 ++ " selected (score: " ++
    qToFixed2 best.score ++ ", " ++
    toString (jsRound (best.metrics.successRate * 100)) ++
    "% success over " ++ toString best.metrics.completedCount ++ " tasks)"

/-- The scoring loop of `routeTask`: look up (and possibly cache) each idle
agent's performance record, in list order, and score it. -/
def scoreAgents (task : TaskRec) (now : Nat) :
    AgentScoring → List AgentRec → List ScoredAgent × AgentScoring
  | sc, [] => ([], sc)
  | sc, a :: rest =>
    let pr := getPerformance sc a.id task.type now
    let sAg : ScoredAgent := ⟨a, calculateScore pr.1 task, pr.1⟩
    let r := scoreAgents task now pr.2 rest
    (sAg :: r.1, r.2)

/-- Stable insertion for descending score order: an element passes every
strictly higher score and stops at the first score less than or equal to its
own, so elements with equal scores keep their original relative order. -/
def insertByScoreDesc (x : ScoredAgent) :
    List ScoredAgent → List ScoredAgent
  | [] => [x]
  | y :: ys =>
    if y.score ≤ x.score then x :: y :: ys else y :: insertByScoreDesc x ys

/-- The stable descending sort
`scoredAgents.sort((a, b) => b.score - a.score)` (JS `Array.prototype.sort`
is stable, so any stable sort computes the same list). -/
def sortByScoreDesc : List ScoredAgent → List ScoredAgent
  | [] => []
  | x :: xs => insertByScoreDesc x (sortByScoreDesc xs)

/-- Embeds `TaskRouter.routeTask(task)`: filter idle agents, recommend spawning
when none, otherwise score all idle agents, sort by score descending and
take the first. -/
def routeTask (s : Store) (sc : AgentScoring) (task : TaskRec) (now : Nat) :
    RoutingDecision × AgentScoring :=
  let idleAgents :=
    (s.listAgents).filter (fun a => a.status = AgentStatus.idle)
  if idleAgents.isEmpty then
    ({ agentId := none, model := selectModel task none, confidence := 1/2,
       reason := "No idle agents available, spawn new" }, sc)
  else
    let pr := scoreAgents task now sc idleAgents
    match sortByScoreDesc pr.1 with
    | best :: _ =>
      ({ agentId := some best.agent.id,
         model := selectModel task (some best.metrics),
         confidence := calculateConfidence best.metrics best.score,
         reason := formatReason best }, pr.2)
    | [] =>
      ({ agentId := none, model := selectModel task none, confidence := 1/2,
         reason := "No idle agents available, spawn new" }, pr.2)

/-! ## Claim C4 -/

lemma insertByScoreDesc_head (x : ScoredAgent) (l : List ScoredAgent) :
    (insertByScoreDesc x l).head? =
      some (match l.head? with
        | none => x
        | some y => if y.score ≤ x.score then x else y) := by
  cases l with
  | nil => rfl
  | cons y ys =>
    by_cases h : y.score ≤ x.score
    · simp [insertByScoreDesc, h]
    · simp [insertByScoreDesc, h]

/-- The head of the stable descending sort of a non-empty list is the first
element of the original list attaining the maximal score. -/
lemma sortByScoreDesc_head_first_max (x : ScoredAgent)
    (xs : List ScoredAgent) :
    ∃ best l1 l2,
      x :: xs = l1 ++ best :: l2 ∧
      (∀ y ∈ l1, y.score < best.score) ∧
      (∀ y ∈ l2, y.score ≤ best.score) ∧
      (sortByScoreDesc (x :: xs)).head? = some best := by
  induction xs generalizing x with
  | nil =>
    exact ⟨x, [], [], rfl, by simp, by simp, rfl⟩
  | cons y ys ih =>
    obtain ⟨b, l1, l2, hdec, hl1, hl2, hhead⟩ := ih y
    have hsort : sortByScoreDesc (x :: y :: ys)
        = insertByScoreDesc x (sortByScoreDesc (y :: ys)) := rfl
    by_cases h : b.score ≤ x.score
    · refine ⟨x, [], y :: ys, rfl, by simp, ?_, ?_⟩
      · intro z hz
        rw [hdec] at hz
        rcases List.mem_append.mp hz with hz | hz
        · exact le_of_lt (lt_of_lt_of_le (hl1 z hz) h)
        · rcases List.mem_cons.mp hz with hzb | hz
          · exact hzb ▸ h
          · exact le_trans (hl2 z hz) h
      · rw [hsort, insertByScoreDesc_head, hhead]
        simp [h]
    · push_neg at h
      refine ⟨b, x :: l1, l2, by rw [List.cons_append, hdec], ?_, hl2, ?_⟩
      · intro z hz
        rcases List.mem_cons.mp hz with hzx | hz
        · exact hzx ▸ h
        · exact hl1 z hz
      · rw [hsort, insertByScoreDesc_head, hhead]
        simp [not_le.mpr h]

lemma scoreAgents_fst_length (task : TaskRec) (now : Nat) :
    ∀ (l : List AgentRec) (sc : AgentScoring),
      (scoreAgents task now sc l).1.length = l.length := by
  intro l
  induction l with
  | nil => intro sc; rfl
  | cons a rest ih =>
    intro sc
    simp only [scoreAgents, List.length_cons]
    rw [ih]

/-- Helper: When at least one idle agent exists, `routeTask`
selects the first agent, in stored list order, whose composite score is
maximal among the idle agents; neither completion counts nor last-updated
timestamps take part in the tie-break. -/
lemma routeTask_first_max_aux (s : Store) (sc : AgentScoring)
    (task : TaskRec) (now : Nat)
    (hne : (s.listAgents.filter (fun a => a.status = AgentStatus.idle))
      ≠ []) :
    ∃ best l1 l2,
      (scoreAgents task now sc
          (s.listAgents.filter (fun a => a.status = AgentStatus.idle))).1
        = l1 ++ best :: l2 ∧
      (∀ y ∈ l1, y.score < best.score) ∧
      (∀ y ∈ l2, y.score ≤ best.score) ∧
      (routeTask s sc task now).1.agentId = some best.agent.id := by
  cases hsc : (scoreAgents task now sc
      (s.listAgents.filter (fun a => a.status = AgentStatus.idle))).1 with
  | nil =>
    exfalso
    have hlen := scoreAgents_fst_length task now
      (s.listAgents.filter (fun a => a.status = AgentStatus.idle)) sc
    rw [hsc] at hlen
    exact hne (List.eq_nil_of_length_eq_zero hlen.symm)
  | cons s0 srest =>
    obtain ⟨best, l1, l2, hdec, hl1, hl2, hhead⟩ :=
      sortByScoreDesc_head_first_max s0 srest
    refine ⟨best, l1, l2, hdec, hl1, hl2, ?_⟩
    have hemp :
        ((s.listAgents.filter (fun a => a.status = AgentStatus.idle)).isEmpty)
          = false := by
      cases hflt : s.listAgents.filter (fun a => a.status = AgentStatus.idle)
      · exact absurd hflt hne
      · rfl
    unfold routeTask
    simp only [hemp, Bool.false_eq_true, if_false, hsc]
    cases hs : sortByScoreDesc (s0 :: srest) with
    | nil => rw [hs] at hhead; cases hhead
    | cons b tail =>
      rw [hs] at hhead
      have hb : b = best := by
        simpa using hhead
      rw [hb]

/-- Claim C4, counterexample. Two idle agents with identical performance
records for type `code` — hence equal composite scores and equal completion
counts — except that the agent listed second (`a1`) has the strictly
earlier last-updated timestamp.  The claim predicts `a1`; `routeTask`
returns the agent listed first (`a2`): the sort compares scores only and,
being stable, keeps the list order on ties. -/
theorem routeTask_tiebreak_counterexample :
    (calculateScore ⟨"a1", TaskType.code, 1/2, 300000, 100, 0, 1000⟩
        ⟨"t", TaskType.code, TaskPriority.normal, ModelType.sonnet, 100, 0,
          TaskStatus.pending⟩
      = calculateScore ⟨"a2", TaskType.code, 1/2, 300000, 100, 0, 2000⟩
        ⟨"t", TaskType.code, TaskPriority.normal, ModelType.sonnet, 100, 0,
          TaskStatus.pending⟩)
    ∧ (1000 : Nat) < 2000
    ∧ (routeTask ⟨[], [], [⟨"a2", AgentStatus.idle⟩, ⟨"a1", AgentStatus.idle⟩]⟩
        ⟨3/10, [("a2:code", ⟨"a2", TaskType.code, 1/2, 300000, 100, 0, 2000⟩),
                ("a1:code", ⟨"a1", TaskType.code, 1/2, 300000, 100, 0, 1000⟩)]⟩
        ⟨"t", TaskType.code, TaskPriority.normal, ModelType.sonnet, 100, 0,
          TaskStatus.pending⟩ 0).1.agentId = some "a2"
    ∧ some "a2" ≠ some "a1" := by
  refine ⟨rfl, by norm_num, ?_, by simp⟩
  obtain ⟨best, l1, l2, hdec, hl1, _, hres⟩ :=
    routeTask_first_max_aux
      ⟨[], [], [⟨"a2", AgentStatus.idle⟩, ⟨"a1", AgentStatus.idle⟩]⟩
      ⟨3/10, [("a2:code", ⟨"a2", TaskType.code, 1/2, 300000, 100, 0, 2000⟩),
              ("a1:code", ⟨"a1", TaskType.code, 1/2, 300000, 100, 0, 1000⟩)]⟩
      ⟨"t", TaskType.code, TaskPriority.normal, ModelType.sonnet, 100, 0,
        TaskStatus.pending⟩ 0
      (show ([⟨"a2", AgentStatus.idle⟩, ⟨"a1", AgentStatus.idle⟩]
          : List AgentRec) ≠ [] from List.cons_ne_nil _ _)
  have hdx : [(⟨⟨"a2", AgentStatus.idle⟩,
        calculateScore ⟨"a2", TaskType.code, 1/2, 300000, 100, 0, 2000⟩
          ⟨"t", TaskType.code, TaskPriority.normal, ModelType.sonnet, 100, 0,
            TaskStatus.pending⟩,
        ⟨"a2", TaskType.code, 1/2, 300000, 100, 0, 2000⟩⟩ : ScoredAgent),
      ⟨⟨"a1", AgentStatus.idle⟩,
        calculateScore ⟨"a1", TaskType.code, 1/2, 300000, 100, 0, 1000⟩
          ⟨"t", TaskType.code, TaskPriority.normal, ModelType.sonnet, 100, 0,
            TaskStatus.pending⟩,
        ⟨"a1", TaskType.code, 1/2, 300000, 100, 0, 1000⟩⟩]
      = l1 ++ best :: l2 := hdec
  cases l1 with
  | nil =>
    simp only [List.nil_append] at hdx
    injection hdx with h1 _
    rw [hres, ← h1]
  | cons z l1t =>
    cases l1t with
    | nil =>
      simp only [List.cons_append, List.nil_append] at hdx
      injection hdx with h1 h2
      injection h2 with h3 _
      have hlt := hl1 z (List.mem_singleton_self z)
      rw [← h1, ← h3] at hlt
      exact absurd
        (show calculateScore ⟨"a1", TaskType.code, 1/2, 300000, 100, 0, 1000⟩
            ⟨"t", TaskType.code, TaskPriority.normal, ModelType.sonnet, 100,
              0, TaskStatus.pending⟩
          < calculateScore ⟨"a1", TaskType.code, 1/2, 300000, 100, 0, 1000⟩
            ⟨"t", TaskType.code, TaskPriority.normal, ModelType.sonnet, 100,
              0, TaskStatus.pending⟩ from hlt)
        (lt_irrefl _)
    | cons w l1t2 =>
      have hlen := congrArg List.length hdx
      simp only [List.length_cons, List.length_append, List.length_nil] at hlen
      omega

/-- Claim C4, amended. When at least one idle agent exists, `routeTask`
selects the first agent, in stored list order, whose composite score is
maximal among the idle agents; neither completion counts nor last-updated
timestamps take part in the tie-break. -/
theorem routeTask_selects_first_in_order (s : Store) (sc : AgentScoring)
    (task : TaskRec) (now : Nat)
    (hne : (s.listAgents.filter (fun a => a.status = AgentStatus.idle))
      ≠ []) :
    ∃ best l1 l2,
      (scoreAgents task now sc
          (s.listAgents.filter (fun a => a.status = AgentStatus.idle))).1
        = l1 ++ best :: l2 ∧
      (∀ y ∈ l1, y.score < best.score) ∧
      (∀ y ∈ l2, y.score ≤ best.score) ∧
      (routeTask s sc task now).1.agentId = some best.agent.id :=
  routeTask_first_max_aux s sc task now hne

/-- Witness for the amended C4 at a concrete input (one idle agent). -/
theorem routeTask_selects_first_in_order_witness :
    ∃ best l1 l2,
      (scoreAgents
          ⟨"t", TaskType.code, TaskPriority.normal, ModelType.sonnet, 100, 0,
            TaskStatus.pending⟩ 0 ⟨3/10, []⟩
          ((Store.listAgents ⟨[], [], [⟨"a1", AgentStatus.idle⟩]⟩).filter
            (fun a => a.status = AgentStatus.idle))).1
        = l1 ++ best :: l2 ∧
      (∀ y ∈ l1, y.score < best.score) ∧
      (∀ y ∈ l2, y.score ≤ best.score) ∧
      (routeTask ⟨[], [], [⟨"a1", AgentStatus.idle⟩]⟩ ⟨3/10, []⟩
        ⟨"t", TaskType.code, TaskPriority.normal, ModelType.sonnet, 100, 0,
          TaskStatus.pending⟩ 0).1.agentId = some best.agent.id :=
  routeTask_selects_first_in_order ⟨[], [], [⟨"a1", AgentStatus.idle⟩]⟩
    ⟨3/10, []⟩
    ⟨"t", TaskType.code, TaskPriority.normal, ModelType.sonnet, 100, 0,
      TaskStatus.pending⟩ 0 (by decide)

/-! ## Task scheduler (`TaskScheduler`) -/

/-- An assignment entry of a scheduling decision. -/
structure TaskAssignment where
  taskId : String
  agentId : String
  score : ℚ
  reason : String
deriving DecidableEq, Repr

/-- A scheduling decision; `deferred` entries are `(taskId, reason)` pairs
and `blocked` entries are `(taskId, blockedBy)` pairs. -/
structure SchedulingDecision where
  assignments : List TaskAssignment
  deferred : List (String × String)
  blocked : List (String × List String)
deriving DecidableEq, Repr

/-- Embeds `TaskScheduler.getAgentTaskCount(agentId)`: the source returns the
constant `0` (the comment there reads "In production, query the store for
running tasks assigned to this agent" / "Simplified for now"). -/
def getAgentTaskCount (_agentId : String) : Nat := 0

/-- Embeds `TaskScheduler.getSpecializationBonus(agent, taskType)`. -/
def getSpecializationBonus (sc : AgentScoring) (agent : AgentRec)
    (taskType : TaskType) : ℚ :=
  let metrics := getMetricsByTaskType sc taskType
  match metrics.find? (fun m => m.agentId = agent.id) with
  | none => 0
  | some am =>
    if am.completedCount > 50 then 1/5
    else if am.completedCount > 20 then 1/10
    else if am.completedCount > 5 then 1/20
    else 0

/-- Embeds `TaskScheduler.explainScore(performance, specializationBonus)`. -/
def explainScore (performance : AgentPerformance)
    (specializationBonus : ℚ) : String :=
  let parts : List String :=
    (if 9/10 < performance.successRate then ["high success rate"]
     else if 7/10 < performance.successRate then ["good success rate"]
     else [])
    ++ (if performance.avgDurationMs < 60000 then ["fast execution"] else [])
    ++ (if performance.completedCount > 20 then ["experienced"] else [])
    ++ (if 1/10 < specializationBonus then ["specialized"] else [])
  if parts.length > 0 then String.intercalate ", " parts
  else "default assignment"

/-- The loop of `TaskScheduler.findBestAgent`: track the best agent, its
adjusted score (starting at `-1`) and its reason, threading the scoring
cache through `getPerformance`. -/
def findBestAgentLoop (task : TaskRec) (now : Nat) :
    AgentScoring → List AgentRec → Option AgentRec × ℚ × String →
    (Option AgentRec × ℚ × String) × AgentScoring
  | sc, [], acc => (acc, sc)
  | sc, agent :: rest, (bestAgent, bestScore, bestReason) =>
    let pr := getPerformance sc agent.id task.type now
    let score := calculateScore pr.1 task
    let specializationBonus := getSpecializationBonus pr.2 agent task.type
    let adjustedScore := score * (1 + specializationBonus)
    if bestScore < adjustedScore then
      findBestAgentLoop task now pr.2 rest
        (some agent, adjustedScore, explainScore pr.1 specializationBonus)
    else
      findBestAgentLoop task now pr.2 rest (bestAgent, bestScore, bestReason)

/-- Embeds `TaskScheduler.findBestAgent(task, availableAgents)`. -/
def findBestAgent (sc : AgentScoring) (task : TaskRec)
    (availableAgents : List AgentRec) (now : Nat) :
    Option TaskAssignment × AgentScoring :=
  if availableAgents.isEmpty then (none, sc)
  else
    let r := findBestAgentLoop task now sc availableAgents (none, -1, "")
    match r.1.1 with
    | none => (none, r.2)
    | some bestAgent =>
      (some ⟨task.id, bestAgent.id, r.1.2.1, r.1.2.2⟩, r.2)

/-- The priority weights of `prioritizeTasks` (`high 3, normal 2, low 1`). -/
def priorityWeight : TaskPriority → Nat
  | TaskPriority.high => 3
  | TaskPriority.normal => 2
  | TaskPriority.low => 1

/-- Whether `a` sorts (weakly) before `b` under the comparator of
`prioritizeTasks`: strictly higher priority weight first, older `createdAt`
first within a priority level. -/
def taskBefore (a b : TaskRec) : Bool :=
  if priorityWeight a.priority ≠ priorityWeight b.priority then
    decide (priorityWeight b.priority < priorityWeight a.priority)
  else decide (a.createdAt ≤ b.createdAt)

/-- Stable insertion for `taskBefore`. -/
def insertTask (x : TaskRec) : List TaskRec → List TaskRec
  | [] => [x]
  | y :: ys => if taskBefore x y then x :: y :: ys else y :: insertTask x ys

/-- Embeds `TaskScheduler.prioritizeTasks(tasks)`: the stable
`tasks.sort(priority desc, createdAt asc)`. -/
def prioritizeTasks : List TaskRec → List TaskRec
  | [] => []
  | x :: xs => insertTask x (prioritizeTasks xs)

/-- The per-task assignment pass of `TaskScheduler.schedule` (step 4 of the
algorithm): defer when the pool is empty, otherwise ask `findBestAgent`;
on an assignment, remove the agent from the pool only when
`getAgentTaskCount` reports it at capacity. -/
def scheduleLoop (now : Nat) (maxConc : Nat) :
    AgentScoring → List TaskRec → List AgentRec → List TaskAssignment →
    List (String × String) →
    List TaskAssignment × List (String × String) × List AgentRec ×
      AgentScoring
  | sc, [], pool, asg, defr => (asg, defr, pool, sc)
  | sc, task :: rest, pool, asg, defr =>
    if pool.isEmpty then
      scheduleLoop now maxConc sc rest pool asg
        (defr ++ [(task.id, "No agents with capacity available")])
    else
      let fb := findBestAgent sc task pool now
      match fb.1 with
      | some assignment =>
        let pool' :=
          if getAgentTaskCount assignment.agentId ≥ maxConc then
            pool.eraseIdx (pool.findIdx (fun a => a.id = assignment.agentId))
          else pool
        scheduleLoop now maxConc fb.2 rest pool' (asg ++ [assignment]) defr
      | none =>
        scheduleLoop now maxConc fb.2 rest pool asg
          (defr ++ [(task.id, "No suitable agent found for task type")])

/-- Embeds `TaskScheduler.schedule(availableAgents)` with
`maxConcurrentPerAgent = maxConc` (constructor default `1`). -/
def schedule (store : Store) (sc : AgentScoring)
    (availableAgents : List AgentRec) (maxConc : Nat) (now : Nat) :
    SchedulingDecision × AgentScoring :=
  let readyTaskIds := getReadyTasks store
  if readyTaskIds.isEmpty then
    ({ assignments := [], deferred := [], blocked := [] }, sc)
  else
    let readyTasks := readyTaskIds.filterMap (fun tid =>
      match store.getTask tid with
      | some t => if t.status = TaskStatus.pending then some t else none
      | none => none)
    let prioritizedTasks := prioritizeTasks readyTasks
    let agentsWithCapacity := availableAgents.filter (fun a =>
      a.status = AgentStatus.idle ∨ getAgentTaskCount a.id < maxConc)
    let r := scheduleLoop now maxConc sc prioritizedTasks agentsWithCapacity
      [] []
    let blocked := (store.listTasksByStatus TaskStatus.pending).filterMap
      (fun task =>
        if readyTaskIds.contains task.id then none
        else
          let unmetDeps := (store.getDependencies task.id).filter
            (fun depId =>
              match store.getTask depId with
              | some depTask => depTask.status ≠ TaskStatus.completed
              | none => false)
          if unmetDeps.isEmpty then none else some (task.id, unmetDeps))
    ({ assignments := r.1, deferred := r.2.1, blocked := blocked }, r.2.2.2)

/-! ## Claim C3 -/

/-- Claim C3, code evaluation at the failing input. Two ready `pending`
tasks and a single idle agent, with `maxConcurrentPerAgent` at its default
of `1`: one `schedule` pass assigns **both** tasks to `agent-a`.  The agent
is never removed from the candidate pool because the removal is guarded by
`getAgentTaskCount(agentId) >= maxConcurrentPerAgent`, and
`getAgentTaskCount` is hard-coded to return `0`. -/
theorem schedule_duplicate_assignment :
    ((schedule
        ⟨[⟨"t1", TaskType.code, TaskPriority.normal, ModelType.sonnet, 100,
            1, TaskStatus.pending⟩,
          ⟨"t2", TaskType.code, TaskPriority.normal, ModelType.sonnet, 100,
            2, TaskStatus.pending⟩], [], []⟩
        ⟨3/10, []⟩ [⟨"agent-a", AgentStatus.idle⟩] 1 0).1.assignments.map
      (fun a => a.agentId)) = ["agent-a", "agent-a"] := by
  norm_num [schedule, getReadyTasks, Store.listTasksByStatus,
    Store.areDependenciesMet, Store.getDependencies, Store.getTask,
    List.find?, List.filter, List.filterMap, prioritizeTasks, insertTask,
    taskBefore, priorityWeight, scheduleLoop, findBestAgent,
    findBestAgentLoop, getPerformance, lookupA, setA, getKey, taskTypeKey,
    defaultMetrics, calculateScore, qclamp01, getSpecializationBonus,
    getMetricsByTaskType, getAgentTaskCount, explainScore, min_def, max_def,
    Store.listAgents, List.all]

/-! ## Conflict monitor (`ConflictMonitor`) -/

/-- Whether `l` starts with `p`. -/
def listStartsWith : List Char → List Char → Bool
  | _, [] => true
  | [], _ :: _ => false
  | c :: cs, p :: ps => c = p && listStartsWith cs ps

/-- Whether `p` occurs as a contiguous run inside `l`. -/
def listHasSub : List Char → List Char → Bool
  | [], p => listStartsWith [] p
  | c :: cs, p => listStartsWith (c :: cs) p || listHasSub cs p

/-- An unanchored JS regex test for a literal pattern: substring match. -/
def strContains (s pat : String) : Bool :=
  listHasSub s.toList pat.toList

/-- A `$`-anchored JS regex test for a literal pattern: suffix match. -/
def strEndsWith (s pat : String) : Bool :=
  listStartsWith s.toList.reverse pat.toList.reverse

/-- Conflict severity. -/
inductive Severity where
  | low | medium | high
deriving DecidableEq, Repr

/-- The critical-file patterns of `assessConflictSeverity`:
`/package\.json$/`, `/package-lock\.json$/`, `/\.env/`, `/config\./`,
`/schema\./`, `/migration/`. -/
def isCriticalFile (file : String) : Bool :=
  strEndsWith file "package.json" || strEndsWith file "package-lock.json" ||
  strContains file ".env" || strContains file "config." ||
  strContains file "schema." || strContains file "migration"

/-- The test-file pattern of `assessConflictSeverity`:
`/\.(test|spec)\.[jt]sx?$/`. -/
def isTestFile (file : String) : Bool :=
  [".test.js", ".test.ts", ".test.jsx", ".test.tsx",
   ".spec.js", ".spec.ts", ".spec.jsx", ".spec.tsx"].any
    (fun pat => strEndsWith file pat)

/-- Embeds `ConflictMonitor.assessConflictSeverity(file, branch1, branch2)`. -/
def assessConflictSeverity (file branch1 branch2 : String) : Severity :=
  if branch1 = branch2 then Severity.high
  else if isCriticalFile file then Severity.high
  else if isTestFile file then Severity.low
  else Severity.medium

/-! ## Claim C7 -/

/-- Claim C7. For every conflict input, the severity is `high` iff the two
holders' branches are equal or the file matches a critical pattern; `low`
iff neither of those holds and the file matches a test-file pattern; and
`medium` in the remaining cases. -/
theorem assessConflictSeverity_spec (file b1 b2 : String) :
    (assessConflictSeverity file b1 b2 = Severity.high ↔
      (b1 = b2 ∨ isCriticalFile file = true))
    ∧ (assessConflictSeverity file b1 b2 = Severity.low ↔
      (b1 ≠ b2 ∧ isCriticalFile file = false ∧ isTestFile file = true))
    ∧ (assessConflictSeverity file b1 b2 = Severity.medium ↔
      (b1 ≠ b2 ∧ isCriticalFile file = false ∧ isTestFile file = false)) := by
  unfold assessConflictSeverity
  by_cases h1 : b1 = b2 <;> by_cases h2 : isCriticalFile file = true <;>
    by_cases h3 : isTestFile file = true <;>
    simp [h1, h2, h3] at *

/-! ## Conflict monitor state and `registerFileActivity` -/

/-- A file lock (`FileLock`). -/
structure FileLock where
  file : String
  agentId : String
  taskId : String
  lockedAt : Nat
  branch : String
deriving DecidableEq, Repr

/-- Conflict event kind. -/
inductive ConflictType where
  | potential | detected | resolved
deriving DecidableEq, Repr

/-- A conflict event (`ConflictEvent`). -/
structure ConflictEvent where
  type : ConflictType
  files : List String
  agents : List String
  severity : Severity
  recommendation : String
deriving DecidableEq, Repr

/-- A history entry (`ConflictInfo`); `resolution` starts `undefined`. -/
structure ConflictInfoRec where
  file : String
  conflictingAgents : List String
  resolution : Option String
deriving DecidableEq, Repr

/-- The `ConflictMonitor` in-memory state: file → lock, agent → files,
and the conflict history. -/
structure MonitorState where
  fileLocks : List (String × FileLock)
  agentFiles : List (String × List String)
  conflictHistory : List ConflictInfoRec
deriving DecidableEq, Repr

/-- Embeds `ConflictMonitor.generateRecommendation(file, existingLock, newAgentId)`
with the wall clock passed as `now` (epoch ms). -/
def generateRecommendation (file : String) (existingLock : FileLock)
    (newAgentId : String) (now : Nat) : String :=
  let lockAge : ℚ := (now : ℚ) - (existingLock.lockedAt : ℚ)
  let lockAgeMinutes := jsRound (lockAge / 60000)
  if lockAgeMinutes > 30 then
    "Agent " ++ existingLock.agentId ++ " has held lock for " ++
      toString lockAgeMinutes ++ "m. Consider checking agent status."
  else if strContains file "index" || strContains file "main" then
    "High-traffic file. Consider sequential execution: let " ++
      existingLock.agentId ++ " complete first."
  else
    newAgentId ++ " should wait for " ++ existingLock.agentId ++
      " to complete changes to " ++ file ++ "."

/-- The get-or-create of the agent's file set at the top of
`registerFileActivity`. -/
def ensureAgentFiles (st : MonitorState) (agentId : String) : MonitorState :=
  match lookupA st.agentFiles agentId with
  | some _ => st
  | none => { st with agentFiles := setA st.agentFiles agentId [] }

/-- Embeds `agentFileSet.add(file)` (a JS `Set`: append when absent). -/
def addAgentFile (st : MonitorState) (agentId file : String) :
    MonitorState :=
  let cur := (lookupA st.agentFiles agentId).getD []
  let cur' := if file ∈ cur then cur else cur ++ [file]
  { st with agentFiles := setA st.agentFiles agentId cur' }

/-- The events emitted for one file of `registerFileActivity`: a
potential-conflict event exactly when the file is already locked by a
different agent. -/
def registerStepEvents (st : MonitorState) (agentId branch : String)
    (now : Nat) (file : String) : List ConflictEvent :=
  match lookupA st.fileLocks file with
  | some lk =>
    if lk.agentId ≠ agentId then
      [{ type := ConflictType.potential, files := [file],
         agents := [lk.agentId, agentId],
         severity := assessConflictSeverity file lk.branch branch,
         recommendation := generateRecommendation file lk agentId now }]
    else []
  | none => []

/-- The state change for one file of `registerFileActivity`: push the
history entry when a different agent holds the lock, then set the lock to
the caller unconditionally ("Register the lock (or update existing)") and
add the file to the caller's set. -/
def registerStepState (st : MonitorState) (agentId taskId branch : String)
    (now : Nat) (file : String) : MonitorState :=
  let histHere : List ConflictInfoRec :=
    match lookupA st.fileLocks file with
    | some lk =>
      if lk.agentId ≠ agentId then
        [⟨file, [lk.agentId, agentId], none⟩]
      else []
    | none => []
  addAgentFile
    { st with
      fileLocks := setA st.fileLocks file
        ⟨file, agentId, taskId, now, branch⟩,
      conflictHistory := st.conflictHistory ++ histHere }
    agentId file

/-- The per-file loop of `registerFileActivity`. -/
def registerLoop (agentId taskId branch : String) (now : Nat) :
    MonitorState → List String → List ConflictEvent × MonitorState
  | st, [] => ([], st)
  | st, file :: rest =>
    let evs := registerStepEvents st agentId branch now file
    let r := registerLoop agentId taskId branch now
      (registerStepState st agentId taskId branch now file) rest
    (evs ++ r.1, r.2)

/-- Embeds `ConflictMonitor.registerFileActivity(agentId, taskId, files, branch)`:
returns the emitted conflict events and the new monitor state. -/
def registerFileActivity (st : MonitorState) (agentId taskId : String)
    (files : List String) (branch : String) (now : Nat) :
    List ConflictEvent × MonitorState :=
  registerLoop agentId taskId branch now (ensureAgentFiles st agentId) files

/-! ## Claim C8 -/

lemma setA_keys_subset {β : Type} (l : List (String × β)) (k x : String)
    (v : β) : x ∈ (setA l k v).map Prod.fst → x = k ∨ x ∈ l.map Prod.fst := by
  induction l with
  | nil =>
    intro h
    simp [setA] at h
    exact Or.inl h
  | cons p rest ih =>
    obtain ⟨k0, v0⟩ := p
    by_cases hk : k0 = k
    · subst hk
      have hset : setA ((k0, v0) :: rest) k0 v = (k0, v) :: rest := by
        unfold setA
        rw [if_pos rfl]
      rw [hset]
      intro h
      simpa using h
    · have hset : setA ((k0, v0) :: rest) k v = (k0, v0) :: setA rest k v := by
        show (if k0 = k then (k, v) :: rest else (k0, v0) :: setA rest k v)
          = (k0, v0) :: setA rest k v
        rw [if_neg hk]
      rw [hset]
      intro h
      rcases List.mem_cons.mp h with h | h
      · exact Or.inr (by simp [h])
      · rcases ih h with h | h
        · exact Or.inl h
        · exact Or.inr (List.mem_cons_of_mem _ h)

lemma setA_keys_nodup {β : Type} (l : List (String × β)) (k : String)
    (v : β) (h : (l.map Prod.fst).Nodup) :
    ((setA l k v).map Prod.fst).Nodup := by
  induction l with
  | nil => simp [setA]
  | cons p rest ih =>
    obtain ⟨k0, v0⟩ := p
    simp only [List.map_cons, List.nodup_cons] at h
    by_cases hk : k0 = k
    · subst hk
      have hset : setA ((k0, v0) :: rest) k0 v = (k0, v) :: rest := by
        unfold setA
        rw [if_pos rfl]
      rw [hset]
      simp only [List.map_cons, List.nodup_cons]
      exact h
    · have hset : setA ((k0, v0) :: rest) k v = (k0, v0) :: setA rest k v := by
        show (if k0 = k then (k, v) :: rest else (k0, v0) :: setA rest k v)
          = (k0, v0) :: setA rest k v
        rw [if_neg hk]
      rw [hset]
      simp only [List.map_cons, List.nodup_cons]
      refine ⟨fun hx => ?_, ih h.2⟩
      rcases setA_keys_subset rest k k0 v hx with h1 | h1
      · exact hk h1
      · exact h.1 h1

lemma registerStepState_fileLocks (st : MonitorState)
    (agentId taskId branch : String) (now : Nat) (file : String) :
    (registerStepState st agentId taskId branch now file).fileLocks
      = setA st.fileLocks file ⟨file, agentId, taskId, now, branch⟩ := rfl

lemma mem_registerStepEvents {st : MonitorState} {agentId branch : String}
    {now : Nat} {file : String} {e : ConflictEvent}
    (he : e ∈ registerStepEvents st agentId branch now file) :
    e.type = ConflictType.potential ∧ e.files = [file] := by
  unfold registerStepEvents at he
  split at he
  · split at he
    · rcases List.mem_singleton.mp he with rfl
      exact ⟨rfl, rfl⟩
    · cases he
  · cases he

lemma exists_registerStepEvents_iff (st : MonitorState)
    (agentId branch : String) (now : Nat) (file : String) :
    (∃ e ∈ registerStepEvents st agentId branch now file, e.files = [file])
      ↔ ∃ lk, lookupA st.fileLocks file = some lk ∧ lk.agentId ≠ agentId := by
  unfold registerStepEvents
  cases hl : lookupA st.fileLocks file with
  | none => simp
  | some lk =>
    by_cases ha : lk.agentId ≠ agentId
    · simp only [if_pos ha]
      constructor
      · intro _
        exact ⟨lk, rfl, ha⟩
      · intro _
        exact ⟨_, List.mem_singleton_self _, rfl⟩
    · simp only [if_neg ha]
      constructor
      · rintro ⟨e, he, _⟩
        cases he
      · rintro ⟨lk', hlk', ha'⟩
        cases hlk'
        exact absurd ha' ha

/-- The invariants of the per-file loop: every processed file ends locked
to the caller, untouched files keep their lock, key distinctness (at most
one lock per path) is preserved, every emitted event is a
potential-conflict for one of the files, and an event exists for a file
exactly when a different agent held its lock on entry. -/
lemma registerLoop_spec (agentId taskId branch : String) (now : Nat) :
    ∀ (files : List String) (st : MonitorState), files.Nodup →
      (∀ f ∈ files,
        lookupA (registerLoop agentId taskId branch now st files).2.fileLocks
          f = some ⟨f, agentId, taskId, now, branch⟩)
      ∧ (∀ f, f ∉ files →
        lookupA (registerLoop agentId taskId branch now st files).2.fileLocks
          f = lookupA st.fileLocks f)
      ∧ ((st.fileLocks.map Prod.fst).Nodup →
        ((registerLoop agentId taskId branch now st files).2.fileLocks.map
          Prod.fst).Nodup)
      ∧ (∀ e ∈ (registerLoop agentId taskId branch now st files).1,
          e.type = ConflictType.potential ∧ ∃ g ∈ files, e.files = [g])
      ∧ (∀ f ∈ files,
          ((∃ e ∈ (registerLoop agentId taskId branch now st files).1,
              e.files = [f]) ↔
            ∃ lk, lookupA st.fileLocks f = some lk ∧ lk.agentId ≠ agentId)) := by
  intro files
  induction files with
  | nil =>
    intro st _
    exact ⟨by simp, fun f _ => rfl, fun h => h, by simp [registerLoop],
      by simp⟩
  | cons f rest ih =>
    intro st hnd
    have hfr : f ∉ rest := (List.nodup_cons.mp hnd).1
    have hndr : rest.Nodup := (List.nodup_cons.mp hnd).2
    obtain ⟨ih1, ih2, ih3, ih4, ih5⟩ :=
      ih (registerStepState st agentId taskId branch now f) hndr
    have hres1 : (registerLoop agentId taskId branch now st (f :: rest)).1
        = registerStepEvents st agentId branch now f ++
          (registerLoop agentId taskId branch now
            (registerStepState st agentId taskId branch now f) rest).1 := rfl
    have hres2 : (registerLoop agentId taskId branch now st (f :: rest)).2
        = (registerLoop agentId taskId branch now
            (registerStepState st agentId taskId branch now f) rest).2 := rfl
    refine ⟨?_, ?_, ?_, ?_, ?_⟩
    · intro g hg
      rw [hres2]
      rcases List.mem_cons.mp hg with rfl | hg
      · rw [ih2 g hfr, registerStepState_fileLocks, lookupA_setA_self]
      · exact ih1 g hg
    · intro g hg
      have hgf : g ≠ f := fun h => hg (h ▸ List.mem_cons_self f rest)
      have hgr : g ∉ rest := fun h => hg (List.mem_cons_of_mem f h)
      rw [hres2, ih2 g hgr, registerStepState_fileLocks,
        lookupA_setA_ne _ _ _ _ hgf]
    · intro hN
      rw [hres2]
      apply ih3
      rw [registerStepState_fileLocks]
      exact setA_keys_nodup _ _ _ hN
    · intro e he
      rw [hres1] at he
      rcases List.mem_append.mp he with he | he
      · obtain ⟨h1, h2⟩ := mem_registerStepEvents he
        exact ⟨h1, f, List.mem_cons_self f rest, h2⟩
      · obtain ⟨h1, g, hg, h2⟩ := ih4 e he
        exact ⟨h1, g, List.mem_cons_of_mem f hg, h2⟩
    · intro g hg
      rw [hres1]
      rcases List.mem_cons.mp hg with rfl | hg
      · constructor
        · rintro ⟨e, he, hef⟩
          rcases List.mem_append.mp he with he | he
          · exact (exists_registerStepEvents_iff st agentId branch now g).mp
              ⟨e, he, hef⟩
          · obtain ⟨_, g', hg', h2⟩ := ih4 e he
            rw [hef] at h2
            cases h2
            exact absurd hg' hfr
        · intro hrhs
          obtain ⟨e, he, hef⟩ :=
            (exists_registerStepEvents_iff st agentId branch now g).mpr hrhs
          exact ⟨e, List.mem_append_left _ he, hef⟩
      · have hgf : g ≠ f := fun h => hfr (h ▸ hg)
        have hiff := ih5 g hg
        have hlk : lookupA (registerStepState st agentId taskId branch now
            f).fileLocks g = lookupA st.fileLocks g := by
          rw [registerStepState_fileLocks, lookupA_setA_ne _ _ _ _ hgf]
        rw [hlk] at hiff
        rw [← hiff]
        constructor
        · rintro ⟨e, he, hef⟩
          rcases List.mem_append.mp he with he | he
          · obtain ⟨_, h2⟩ := mem_registerStepEvents he
            rw [hef] at h2
            cases h2
            exact absurd rfl hgf
          · exact ⟨e, he, hef⟩
        · rintro ⟨e, he, hef⟩
          exact ⟨e, List.mem_append_right _ he, hef⟩

/-- Claim C8, counterexample. File `f.ts` is locked by agent `A`; agent `B`
registers activity on it.  The claim says the existing lock is kept; in
fact the lock is transferred to `B`. -/
theorem registerFileActivity_transfer_counterexample :
    (lookupA (registerFileActivity
        ⟨[("f.ts", ⟨"f.ts", "A", "tA", 0, "main"⟩)], [("A", ["f.ts"])], []⟩
        "B" "tB" ["f.ts"] "dev" 5).2.fileLocks "f.ts").map
      (fun lk => lk.agentId) = some "B" ∧ "B" ≠ "A" := by
  refine ⟨?_, by simp⟩
  rfl

/-- Claim C8, amended. `registerFileActivity(agentID, taskID, files, branch)`
locks **every** path in `files` to the caller, overwriting a lock held by a
different agent (rather than keeping it); for each path already held by a
different agent a `potential` conflict event is generated; locks on other
paths are untouched; and at most one lock exists per path (the lock table
keys stay distinct). -/
theorem registerFileActivity_overwrites (st : MonitorState)
    (agentId taskId : String) (files : List String) (branch : String)
    (now : Nat) (hnd : files.Nodup)
    (hN : (st.fileLocks.map Prod.fst).Nodup) :
    (∀ f ∈ files,
      lookupA (registerFileActivity st agentId taskId files branch
        now).2.fileLocks f = some ⟨f, agentId, taskId, now, branch⟩)
    ∧ (∀ f, f ∉ files →
      lookupA (registerFileActivity st agentId taskId files branch
        now).2.fileLocks f = lookupA st.fileLocks f)
    ∧ ((registerFileActivity st agentId taskId files branch
        now).2.fileLocks.map Prod.fst).Nodup
    ∧ (∀ e ∈ (registerFileActivity st agentId taskId files branch now).1,
        e.type = ConflictType.potential ∧ ∃ g ∈ files, e.files = [g])
    ∧ (∀ f ∈ files,
        ((∃ e ∈ (registerFileActivity st agentId taskId files branch now).1,
            e.files = [f]) ↔
          ∃ lk, lookupA st.fileLocks f = some lk ∧ lk.agentId ≠ agentId)) := by
  have hens : (ensureAgentFiles st agentId).fileLocks = st.fileLocks := by
    unfold ensureAgentFiles
    cases lookupA st.agentFiles agentId <;> rfl
  obtain ⟨h1, h2, h3, h4, h5⟩ := registerLoop_spec agentId taskId branch now
    files (ensureAgentFiles st agentId) hnd
  rw [hens] at h2 h3 h5
  exact ⟨h1, h2, h3 hN, h4, h5⟩

/-- Witness for the amended C8 at the counterexample input. -/
theorem registerFileActivity_overwrites_witness :
    (∀ f ∈ ["f.ts"],
      lookupA (registerFileActivity
        ⟨[("f.ts", ⟨"f.ts", "A", "tA", 0, "main"⟩)], [("A", ["f.ts"])], []⟩
        "B" "tB" ["f.ts"] "dev" 5).2.fileLocks f
        = some ⟨f, "B", "tB", 5, "dev"⟩)
    ∧ (∀ f, f ∉ ["f.ts"] →
      lookupA (registerFileActivity
        ⟨[("f.ts", ⟨"f.ts", "A", "tA", 0, "main"⟩)], [("A", ["f.ts"])], []⟩
        "B" "tB" ["f.ts"] "dev" 5).2.fileLocks f
        = lookupA ([("f.ts", ⟨"f.ts", "A", "tA", 0, "main"⟩)]
          : List (String × FileLock)) f)
    ∧ ((registerFileActivity
        ⟨[("f.ts", ⟨"f.ts", "A", "tA", 0, "main"⟩)], [("A", ["f.ts"])], []⟩
        "B" "tB" ["f.ts"] "dev" 5).2.fileLocks.map Prod.fst).Nodup
    ∧ (∀ e ∈ (registerFileActivity
        ⟨[("f.ts", ⟨"f.ts", "A", "tA", 0, "main"⟩)], [("A", ["f.ts"])], []⟩
        "B" "tB" ["f.ts"] "dev" 5).1,
        e.type = ConflictType.potential ∧ ∃ g ∈ ["f.ts"], e.files = [g])
    ∧ (∀ f ∈ ["f.ts"],
        ((∃ e ∈ (registerFileActivity
            ⟨[("f.ts", ⟨"f.ts", "A", "tA", 0, "main"⟩)], [("A", ["f.ts"])],
              []⟩ "B" "tB" ["f.ts"] "dev" 5).1, e.files = [f]) ↔
          ∃ lk, lookupA ([("f.ts", ⟨"f.ts", "A", "tA", 0, "main"⟩)]
              : List (String × FileLock)) f
            = some lk ∧ lk.agentId ≠ "B")) :=
  registerFileActivity_overwrites
    ⟨[("f.ts", ⟨"f.ts", "A", "tA", 0, "main"⟩)], [("A", ["f.ts"])], []⟩
    "B" "tB" ["f.ts"] "dev" 5 (by decide) (by decide)

/-! ## Budget guard at the request boundary (`services/orchestrator/src/index.ts`) -/

/-- The budget configuration (`BudgetConfig`). -/
structure BudgetConfig where
  perTaskMaxCents : Int
  dailyLimitCents : Int
  weeklyLimitCents : Int
  alertThresholdPercent : Int
  pauseThresholdPercent : Int
deriving DecidableEq, Repr

/-- The budget state (`BudgetStatus`). -/
structure BudgetStatusRec where
  config : BudgetConfig
  dailyUsedCents : Int
  weeklyUsedCents : Int
  isPaused : Bool
  lastUpdated : Nat
deriving DecidableEq, Repr

/-- The orchestrator process state touched by the two cited code regions:
the task map and the budget. -/
structure OrchState where
  tasks : List (String × TaskRec)
  budget : BudgetStatusRec
deriving DecidableEq, Repr

/-- One submitted task body after schema validation (the fields the
submit handler reads). -/
structure SubmitInput where
  type : TaskType
  priority : TaskPriority
  model : ModelType
  budgetCents : Int
deriving DecidableEq, Repr

/-- The response of the submit endpoint: either an error status with a
message, or the created ids with the cost estimate. -/
inductive SubmitResponse where
  | refused (status : Nat) (error : String)
  | accepted (taskIds : List String) (estimatedCostCents : Int)
deriving DecidableEq, Repr

/-- The per-task cost estimate of the submit handler
(`task.model === 'opus' ? 200 : 120`). -/
def perTaskEstimate (m : ModelType) : Int :=
  match m with
  | ModelType.opus => 200
  | ModelType.sonnet => 120

/-- The budget update of the result-processing handler: increment the
daily and weekly counters by the result's cost, then set the paused flag
when the daily counter has reached the daily limit. -/
def processResultBudget (b : BudgetStatusRec) (costCents : Int)
    (now : Nat) : BudgetStatusRec :=
  let b1 := { b with
    dailyUsedCents := b.dailyUsedCents + costCents,
    weeklyUsedCents := b.weeklyUsedCents + costCents,
    lastUpdated := now }
  if b1.dailyUsedCents ≥ b1.config.dailyLimitCents then
    { b1 with isPaused := true }
  else b1

/-- The `POST /api/tasks` handler after schema validation: refuse with
HTTP 503 while the budget is paused (before any task is created),
otherwise mint an id per task (`ids` models the `uuidv4()` draws), store
the tasks and sum the cost estimate. -/
def submitTasks (st : OrchState) (inputs : List SubmitInput)
    (ids : List String) (now : Nat) : SubmitResponse × OrchState :=
  if st.budget.isPaused then
    (SubmitResponse.refused 503 "Budget limit reached, submissions paused",
      st)
  else
    let newTasks := (inputs.zip ids).map (fun p =>
      (p.2, ({ id := p.2,
               type := p.1.type,
               priority := p.1.priority,
               model := p.1.model,
               budgetCents := p.1.budgetCents,
               createdAt := now,
               status := TaskStatus.pending } : TaskRec)))
    (SubmitResponse.accepted (newTasks.map Prod.fst)
      ((inputs.map (fun i => perTaskEstimate i.model)).foldl (· + ·) 0),
      { st with
        tasks := newTasks.foldl (fun acc p => setA acc p.1 p.2) st.tasks })

/-! ## Claim C6 -/

/-- Claim C6, counterexample. The spec scenario: daily cap 100 cents, one
completed result of cost 100 sets the paused flag, and the next submission
is refused — but with HTTP **503**, which is a 5xx, not the 4xx the claim
states. -/
theorem submit_refusal_status_counterexample :
    (processResultBudget ⟨⟨500, 100, 1000, 80, 100⟩, 0, 0, false, 0⟩ 100
      1).isPaused = true
    ∧ (submitTasks
        ⟨[], processResultBudget ⟨⟨500, 100, 1000, 80, 100⟩, 0, 0, false, 0⟩
          100 1⟩
        [⟨TaskType.code, TaskPriority.normal, ModelType.sonnet, 100⟩]
        ["id-1"] 2).1
      = SubmitResponse.refused 503 "Budget limit reached, submissions paused"
    ∧ ¬(400 ≤ 503 ∧ 503 < 500) := by
  exact ⟨rfl, rfl, by norm_num⟩

/-- Claim C6, amended. Whenever a completed result's cost raises
`dailyUsedCents` to at least the daily cap, the paused flag is set (and it
is never cleared by the handler); while paused, every submission is refused
with HTTP **503** (`"Budget limit reached, submissions paused"`) and no
task is created — the state is returned unchanged. -/
theorem budget_pause_and_refusal (st : OrchState) (cost : Int)
    (now now2 : Nat) (inputs : List SubmitInput) (ids : List String) :
    ((processResultBudget st.budget cost now).dailyUsedCents
      = st.budget.dailyUsedCents + cost)
    ∧ ((processResultBudget st.budget cost now).isPaused
      = (st.budget.isPaused ||
          decide (st.budget.dailyUsedCents + cost
            ≥ st.budget.config.dailyLimitCents)))
    ∧ (st.budget.isPaused = true →
        submitTasks st inputs ids now2
          = (SubmitResponse.refused 503
              "Budget limit reached, submissions paused", st)) := by
  refine ⟨?_, ?_, ?_⟩
  · unfold processResultBudget
    by_cases h : st.budget.dailyUsedCents + cost
        ≥ st.budget.config.dailyLimitCents <;> simp [h]
  · unfold processResultBudget
    by_cases h : st.budget.dailyUsedCents + cost
        ≥ st.budget.config.dailyLimitCents <;> simp [h]
  · intro h
    unfold submitTasks
    rw [h]
    rfl

/-- Witness for the amended C6 at the counterexample input. -/
theorem budget_pause_and_refusal_witness :
    ((processResultBudget
      (OrchState.budget ⟨[], ⟨⟨500, 100, 1000, 80, 100⟩, 0, 0, true, 0⟩⟩)
      100 1).dailyUsedCents
      = (OrchState.budget
          ⟨[], ⟨⟨500, 100, 1000, 80, 100⟩, 0, 0, true, 0⟩⟩).dailyUsedCents
        + 100)
    ∧ ((processResultBudget
        (OrchState.budget ⟨[], ⟨⟨500, 100, 1000, 80, 100⟩, 0, 0, true, 0⟩⟩)
        100 1).isPaused
      = ((OrchState.budget
          ⟨[], ⟨⟨500, 100, 1000, 80, 100⟩, 0, 0, true, 0⟩⟩).isPaused ||
          decide ((OrchState.budget
            ⟨[], ⟨⟨500, 100, 1000, 80, 100⟩, 0, 0, true, 0⟩⟩).dailyUsedCents
              + 100
            ≥ (OrchState.budget
              ⟨[], ⟨⟨500, 100, 1000, 80,
                100⟩, 0, 0, true, 0⟩⟩).config.dailyLimitCents)))
    ∧ (submitTasks ⟨[], ⟨⟨500, 100, 1000, 80, 100⟩, 0, 0, true, 0⟩⟩
        [⟨TaskType.code, TaskPriority.normal, ModelType.sonnet, 100⟩]
        ["id-1"] 2
        = (SubmitResponse.refused 503
            "Budget limit reached, submissions paused",
          ⟨[], ⟨⟨500, 100, 1000, 80, 100⟩, 0, 0, true, 0⟩⟩)) :=
  ⟨(budget_pause_and_refusal ⟨[], ⟨⟨500, 100, 1000, 80, 100⟩, 0, 0, true, 0⟩⟩
      100 1 2 [⟨TaskType.code, TaskPriority.normal, ModelType.sonnet, 100⟩]
      ["id-1"]).1,
   (budget_pause_and_refusal ⟨[], ⟨⟨500, 100, 1000, 80, 100⟩, 0, 0, true, 0⟩⟩
      100 1 2 [⟨TaskType.code, TaskPriority.normal, ModelType.sonnet, 100⟩]
      ["id-1"]).2.1,
   (budget_pause_and_refusal ⟨[], ⟨⟨500, 100, 1000, 80, 100⟩, 0, 0, true, 0⟩⟩
      100 1 2 [⟨TaskType.code, TaskPriority.normal, ModelType.sonnet, 100⟩]
      ["id-1"]).2.2 rfl⟩

/-! ## Fly executor status mapping (`FlyExecutor`) -/

/-- Fly machine states. -/
inductive FlyMachineState where
  | created | starting | started | stopping | stopped | replacing
  | destroying | destroyed
deriving DecidableEq, Repr

/-- A Fly machine API response (the fields the status mapping reads). -/
structure FlyMachine where
  id : String
  state : FlyMachineState
deriving DecidableEq, Repr

/-- The outcome of one `flyApi` call: a parsed machine, or the error thrown
on a non-ok HTTP response, carrying the status code and the response
body. -/
inductive FlyApiOutcome where
  | ok (machine : FlyMachine)
  | apiError (status : Nat) (body : String)
deriving DecidableEq, Repr

/-- The message of the error `flyApi` throws:
`` `Fly API error ${response.status}: ${errorText}` ``. -/
def flyErrorMessage (status : Nat) (body : String) : String :=
  "Fly API error " ++ toString status ++ ": " ++ body

/-- The executor's execution status vocabulary. -/
inductive ExecutionStatus where
  | pending | running | completed | failed
deriving DecidableEq, Repr

/-- Embeds `FlyExecutor.getExecutionStatus(executionId)` as a function of the API
call's outcome: map machine states; on a thrown error, return `completed`
when the message contains `'404'`, `failed` otherwise.  (The `default`
branch of the switch is unreachable: every machine state is covered.) -/
def getExecutionStatus (outcome : FlyApiOutcome) : ExecutionStatus :=
  match outcome with
  | FlyApiOutcome.ok machine =>
    match machine.state with
    | FlyMachineState.created => ExecutionStatus.pending
    | FlyMachineState.starting => ExecutionStatus.pending
    | FlyMachineState.started => ExecutionStatus.running
    | FlyMachineState.stopping => ExecutionStatus.completed
    | FlyMachineState.stopped => ExecutionStatus.completed
    | FlyMachineState.destroying => ExecutionStatus.completed
    | FlyMachineState.destroyed => ExecutionStatus.completed
    | FlyMachineState.replacing => ExecutionStatus.running
  | FlyApiOutcome.apiError status body =>
    if strContains (flyErrorMessage status body) "404" then
      ExecutionStatus.completed
    else ExecutionStatus.failed

/-- The result statuses `waitForCompletion` can return. -/
inductive WaitStatus where
  | completed | failed | timeout
deriving DecidableEq, Repr

/-- Embeds `FlyExecutor.waitForCompletion(executionId, timeoutMs)` as a function
of the blocking-wait API call's outcome: success means the machine reached
`stopped`; on a thrown error, `'408'`/`'timeout'` in the message is checked
first (→ `timeout`), then `'404'` (→ `completed`), and anything else is
`failed`. -/
def waitForCompletion (outcome : FlyApiOutcome) : WaitStatus :=
  match outcome with
  | FlyApiOutcome.ok _ => WaitStatus.completed
  | FlyApiOutcome.apiError status body =>
    let msg := flyErrorMessage status body
    if strContains msg "408" || strContains msg "timeout" then
      WaitStatus.timeout
    else if strContains msg "404" then WaitStatus.completed
    else WaitStatus.failed

/-! ## Claim C9 -/

lemma listStartsWith_nil (l : List Char) : listStartsWith l [] = true := by
  cases l <;> rfl

lemma listStartsWith_append (l r p : List Char)
    (h : listStartsWith l p = true) : listStartsWith (l ++ r) p = true := by
  induction p generalizing l with
  | nil => exact listStartsWith_nil _
  | cons q ps ih =>
    cases l with
    | nil => cases h
    | cons c cs =>
      simp only [listStartsWith, Bool.and_eq_true] at h
      simp only [List.cons_append, listStartsWith, Bool.and_eq_true]
      exact ⟨h.1, ih cs h.2⟩

lemma listHasSub_append_left (l r p : List Char)
    (h : listHasSub l p = true) : listHasSub (l ++ r) p = true := by
  induction l with
  | nil =>
    cases p with
    | nil =>
      cases r with
      | nil => rfl
      | cons c cs => simp [listHasSub, listStartsWith]
    | cons q ps => cases h
  | cons c cs ih =>
    simp only [listHasSub, Bool.or_eq_true] at h
    simp only [List.cons_append, listHasSub, Bool.or_eq_true]
    rcases h with h | h
    · exact Or.inl (listStartsWith_append _ _ _ h)
    · exact Or.inr (ih h)

lemma strContains_flyError_404 (body : String) :
    strContains (flyErrorMessage 404 body) "404" = true := by
  have hsplit : (flyErrorMessage 404 body).toList
      = ("Fly API error " ++ toString (404 : Nat) ++ ": ").toList
        ++ body.toList := by
    simp [flyErrorMessage, String.toList, String.data_append]
  unfold strContains
  rw [hsplit]
  apply listHasSub_append_left
  decide

/-- Claim C9, counterexample. A 404 from the provider whose error body
mentions a timeout: `waitForCompletion` classifies it as `timeout`, not the
`completed` the claim states, because the `'408'`/`'timeout'` check runs
before the `'404'` check. -/
theorem waitForCompletion_404_timeout_counterexample :
    waitForCompletion (FlyApiOutcome.apiError 404
      "machine not found: wait timeout exceeded") = WaitStatus.timeout
    ∧ WaitStatus.timeout ≠ WaitStatus.completed := by
  exact ⟨rfl, by simp⟩

/-- Claim C9, amended. A provider 404 makes `getExecutionStatus` return
`completed` (never `failed`); `waitForCompletion` returns `completed` on a
404 provided the error text contains neither `'408'` nor `'timeout'`
(those are classified as `timeout` first); and `failed` only arises from
responses whose message lacks `'404'`. -/
theorem fly_404_treated_completed (status : Nat) (body : String) :
    (getExecutionStatus (FlyApiOutcome.apiError 404 body)
      = ExecutionStatus.completed)
    ∧ (strContains (flyErrorMessage 404 body) "408" = false →
        strContains (flyErrorMessage 404 body) "timeout" = false →
        waitForCompletion (FlyApiOutcome.apiError 404 body)
          = WaitStatus.completed)
    ∧ (getExecutionStatus (FlyApiOutcome.apiError status body)
          = ExecutionStatus.failed →
        strContains (flyErrorMessage status body) "404" = false)
    ∧ (waitForCompletion (FlyApiOutcome.apiError status body)
          = WaitStatus.failed →
        strContains (flyErrorMessage status body) "404" = false) := by
  refine ⟨?_, ?_, ?_, ?_⟩
  · simp [getExecutionStatus, strContains_flyError_404]
  · intro h408 htime
    simp [waitForCompletion, h408, htime, strContains_flyError_404]
  · intro h
    simp only [getExecutionStatus] at h
    by_cases hc : strContains (flyErrorMessage status body) "404" = true
    · rw [hc] at h
      simp at h
    · simpa using hc
  · intro h
    simp only [waitForCompletion] at h
    by_cases hc : strContains (flyErrorMessage status body) "404" = true
    · exfalso
      by_cases ht : (strContains (flyErrorMessage status body) "408"
          || strContains (flyErrorMessage status body) "timeout") = true
      · rw [ht] at h
        simp at h
      · rw [Bool.not_eq_true] at ht
        rw [ht, hc] at h
        simp at h
    · simpa using hc

/-- Witness for the amended C9 at a concrete input. -/
theorem fly_404_treated_completed_witness :
    (getExecutionStatus (FlyApiOutcome.apiError 404 "machine gone")
      = ExecutionStatus.completed)
    ∧ (waitForCompletion (FlyApiOutcome.apiError 404 "machine gone")
      = WaitStatus.completed) :=
  ⟨(fly_404_treated_completed 404 "machine gone").1,
   (fly_404_treated_completed 404 "machine gone").2.1 (by decide) (by decide)⟩

/-! ## Mesh topology message queues (`MeshTopology`) -/

/-- An agent-to-agent message (`AgentMessage`); `payload` is opaque and
modelled as a string. -/
structure AgentMessage where
  id : String
  fromAgentId : String
  toAgentId : String
  taskId : String
  type : String
  payload : String
  timestamp : Nat
deriving DecidableEq, Repr

/-- The queue state of `MeshTopology`: the per-agent pending-message
queues.  (The pending-response table drives `sendRequest` timers and is
not involved in the delivery/read path verified here.) -/
structure MeshState where
  messageQueues : List (String × List AgentMessage)
deriving DecidableEq, Repr

/-- Embeds `MeshTopology.deliverMessage(agentId, message)`: push onto the agent's
queue (creating it when absent). -/
def deliverMessage (st : MeshState) (agentId : String)
    (message : AgentMessage) : MeshState :=
  let queue := (lookupA st.messageQueues agentId).getD []
  { st with
    messageQueues := setA st.messageQueues agentId (queue ++ [message]) }

/-- Embeds `MeshTopology.getMessages(agentId)`: return the agent's queue and reset
it to empty. -/
def getMessages (st : MeshState) (agentId : String) :
    List AgentMessage × MeshState :=
  let queue := (lookupA st.messageQueues agentId).getD []
  (queue, { st with messageQueues := setA st.messageQueues agentId [] })

/-! ## Claim C10 -/

lemma getMessages_after_deliveries (a : String) :
    ∀ (ms : List AgentMessage) (st : MeshState) (q : List AgentMessage),
      lookupA st.messageQueues a = some q →
      (getMessages (ms.foldl (fun s m => deliverMessage s a m) st) a).1
        = q ++ ms := by
  intro ms
  induction ms with
  | nil =>
    intro st q hq
    simp [getMessages, hq]
  | cons m rest ih =>
    intro st q hq
    have hdel : lookupA (deliverMessage st a m).messageQueues a
        = some (q ++ [m]) := by
      unfold deliverMessage
      rw [hq]
      exact lookupA_setA_self _ _ _

    have := ih (deliverMessage st a m) (q ++ [m]) hdel
    simpa [List.append_assoc] using this

/-- Claim C10. `getMessages(agentId)` returns exactly the agent's pending
queue and resets it to empty, leaving every other queue untouched: a
second call with no intervening delivery returns `[]`, and after a call,
delivering any batch of messages and reading again returns exactly that
batch — read-once delivery. -/
theorem getMessages_read_once (st : MeshState) (a : String) :
    ((getMessages st a).1 = (lookupA st.messageQueues a).getD [])
    ∧ (lookupA ((getMessages st a).2).messageQueues a = some [])
    ∧ (∀ b, b = a ∨ lookupA ((getMessages st a).2).messageQueues b
        = lookupA st.messageQueues b)
    ∧ ((getMessages ((getMessages st a).2) a).1 = [])
    ∧ (∀ ms : List AgentMessage,
        (getMessages (ms.foldl (fun s m => deliverMessage s a m)
          ((getMessages st a).2)) a).1 = ms) := by
  have h2 : lookupA ((getMessages st a).2).messageQueues a = some [] :=
    lookupA_setA_self _ _ _
  refine ⟨rfl, h2, ?_, ?_, ?_⟩
  · intro b
    by_cases hb : b = a
    · exact Or.inl hb
    · exact Or.inr (lookupA_setA_ne _ _ _ _ hb)
  · simp [getMessages, lookupA_setA_self]
  · intro ms
    simpa using getMessages_after_deliveries a ms ((getMessages st a).2) []
      h2
